import Mathlib

/-!
Verification development for the cache core of the hl8-aio-saas-practice
repository: the cache-key factory (src/libs/cache/src/factories/cache-key.factory.ts),
the tiered cache manager (src/libs/cache/src/services/cache-manager.service.ts)
and the invalidation engine (src/libs/cache/src/services/cache-invalidation.service.ts).

JavaScript strings are embedded as lists of characters (`Str`); JS `split` /
`join` become `List.splitOn` / `List.intercalate`, which have the same
semantics for a single-character separator.  Wall-clock quantities
(`Date.now()` timestamps, `executionTime`, `averageExecutionTime`,
`createdAt` / `updatedAt`) are not modelled: no claim depends on them.
-/

namespace Hl8Cache

/-- A JavaScript string, embedded as its list of UTF-16 code points. -/
abbrev Str := List Char

/-- Lexicographic comparison of strings by code point; this is the order the
default (comparator-free) JavaScript `Array.prototype.sort` uses on strings. -/
def strLeB : Str → Str → Bool
  | [], _ => true
  | _ :: _, [] => false
  | a :: as, b :: bs =>
    if a.toNat < b.toNat then true
    else if b.toNat < a.toNat then false
    else strLeB as bs

/-- `strLeB` as a relation, for use with `List.insertionSort`. -/
def strLeR (a b : Str) : Prop := strLeB a b = true

instance : DecidableRel strLeR := fun _ _ => inferInstanceAs (Decidable (_ = true))

/-- The `CacheKey` interface of `cache.interface.ts`: base key plus optional
namespace, version, tenant id, user id, and a tag list. -/
structure CacheKey where
  key : Str
  nspace : Option Str
  version : Option Str
  tenantId : Option Str
  userId : Option Str
  tags : List Str
deriving DecidableEq

namespace CacheKeyFactory

/-- Reserved segment marker `tenant`. -/
def tenantMark : Str := ['t', 'e', 'n', 'a', 'n', 't']

/-- Reserved segment marker `user`. -/
def userMark : Str := ['u', 's', 'e', 'r']

/-- Reserved segment marker `tags`. -/
def tagsMark : Str := ['t', 'a', 'g', 's']

/-- The sort the source applies to tags before serializing
(`cacheKey.tags.sort()`). -/
def sortTags (ts : List Str) : List Str := List.insertionSort strLeR ts

/-- The version segment of the serialized form: pushed only when
`cacheKey.version` is truthy (present and non-empty). -/
def versionPart (k : CacheKey) : List Str :=
  match k.version with
  | some v => if v = [] then [] else [v]
  | none => []

/-- The namespace segment: pushed only when truthy. -/
def nsPart (k : CacheKey) : List Str :=
  match k.nspace with
  | some n => if n = [] then [] else [n]
  | none => []

/-- The tenant segment, pushed as the single composite part
`tenant:<tenantId>` when truthy. -/
def tenantPart (k : CacheKey) : List Str :=
  match k.tenantId with
  | some t => if t = [] then [] else [tenantMark ++ [':'] ++ t]
  | none => []

/-- The user segment, pushed as the single composite part `user:<userId>`
when truthy. -/
def userPart (k : CacheKey) : List Str :=
  match k.userId with
  | some u => if u = [] then [] else [userMark ++ [':'] ++ u]
  | none => []

/-- The tags segment, pushed as the single composite part
`tags:<sorted,comma-joined>` when the tag list is non-empty. -/
def tagsPart (k : CacheKey) : List Str :=
  if k.tags = [] then []
  else [tagsMark ++ [':'] ++ List.intercalate [','] (sortTags k.tags)]

/-- `CacheKeyFactory.toString`: join the pushed parts with `:`
(source lines 504-536 of cache-key.factory.ts). -/
def toString (k : CacheKey) : Str :=
  List.intercalate [':']
    (versionPart k ++ nsPart k ++ tenantPart k ++ userPart k ++ tagsPart k ++ [k.key])

/-- Stage 1 of `parse`: consume a leading part starting with `v` as the
version (`parts[0].startsWith('v')`). -/
def takeVersion : List Str → Option Str × List Str
  | [] => (none, [])
  | p :: rest => if p.head? = some 'v' then (some p, rest) else (none, p :: rest)

/-- Stage 2 of `parse`: consume the next part as the namespace when it is not
a reserved marker and not the final segment. -/
def takeNamespace : List Str → Option Str × List Str
  | [] => (none, [])
  | p :: rest =>
    if p ≠ tenantMark ∧ p ≠ userMark ∧ p ≠ tagsMark ∧ rest ≠ [] then (some p, rest)
    else (none, p :: rest)

/-- Stages 3-4 of `parse`: when the next part equals the marker `m`, consume
the marker, then consume the following part (if any) as the field value. -/
def takeMarked (m : Str) : List Str → Option Str × List Str
  | [] => (none, [])
  | p :: rest =>
    if p = m then
      match rest with
      | t :: r => (some t, r)
      | [] => (none, [])
    else (none, p :: rest)

/-- Stage 5 of `parse`: when the next part is the `tags` marker, consume it
and split the following part on commas, dropping empty tags. -/
def takeTags : List Str → List Str × List Str
  | [] => ([], [])
  | p :: rest =>
    if p = tagsMark then
      match rest with
      | t :: r => ((t.splitOn ',').filter (fun x => x.length > 0), r)
      | [] => ([], [])
    else ([], p :: rest)

/-- `CacheKeyFactory.parse` over the already-split parts: sequential stages
for version, namespace, tenant, user and tags; the remaining parts re-joined
by `:` form the base key (source lines 544-606). -/
def parseParts (parts : List Str) : CacheKey :=
  let s1 := takeVersion parts
  let s2 := takeNamespace s1.2
  let s3 := takeMarked tenantMark s2.2
  let s4 := takeMarked userMark s3.2
  let s5 := takeTags s4.2
  ⟨List.intercalate [':'] s5.2, s2.1, s1.1, s3.1, s4.1, s5.1⟩

/-- `CacheKeyFactory.parse`: split the key string on `:` and run the staged
parser. -/
def parse (s : Str) : CacheKey := parseParts (s.splitOn ':')

/-- Tenant segment of the serialized key after splitting on `:`: the
composite part `tenant:<tenantId>` contributes the two tokens
`tenant`, `<tenantId>`. -/
def tenantFlat (k : CacheKey) : List Str :=
  match k.tenantId with
  | some t => if t = [] then [] else [tenantMark, t]
  | none => []

/-- User segment of the serialized key after splitting on `:`. -/
def userFlat (k : CacheKey) : List Str :=
  match k.userId with
  | some u => if u = [] then [] else [userMark, u]
  | none => []

/-- Tags segment of the serialized key after splitting on `:`. -/
def tagsFlat (k : CacheKey) : List Str :=
  if k.tags = [] then []
  else [tagsMark, List.intercalate [','] (sortTags k.tags)]

/-- The token list the serialized key string splits into on `:`. -/
def flatParts (k : CacheKey) : List Str :=
  versionPart k ++ nsPart k ++ tenantFlat k ++ userFlat k ++ tagsFlat k ++ [k.key]

/-- Disambiguation conditions under which the staged parser inverts
serialization: every present field is non-empty and free of the separator
(and tags free of the comma), a present version starts with `v`, neither the
namespace nor the base key collides with a reserved marker, the token that
ends up first does not spuriously start with `v`, and the tag list is
already in the sorted order serialization emits. -/
def roundTripSafe (k : CacheKey) : Prop :=
  (¬k.key = [] ∧ ':' ∉ k.key ∧
      ¬k.key = tenantMark ∧ ¬k.key = userMark ∧ ¬k.key = tagsMark) ∧
    (¬(k.version = none ∧ k.nspace = none ∧ k.tenantId = none ∧ k.userId = none ∧
        k.tags = []) ∨ ¬k.key.head? = some 'v') ∧
    (match k.version with
     | some v => ¬v = [] ∧ v.head? = some 'v' ∧ ':' ∉ v
     | none => True) ∧
    (match k.nspace with
     | some n => ¬n = [] ∧ ':' ∉ n ∧ ¬n = tenantMark ∧ ¬n = userMark ∧ ¬n = tagsMark ∧
         (¬k.version = none ∨ ¬n.head? = some 'v')
     | none => True) ∧
    (match k.tenantId with
     | some t => ¬t = [] ∧ ':' ∉ t
     | none => True) ∧
    (match k.userId with
     | some u => ¬u = [] ∧ ':' ∉ u
     | none => True) ∧
    (∀ t ∈ k.tags, ¬t = [] ∧ ':' ∉ t ∧ ',' ∉ t) ∧
    List.Sorted strLeR k.tags

/-- Character class retained by `sanitizeKey` / `sanitizeNamespace`
(`[a-zA-Z0-9\-_.]`). -/
def keyChar (c : Char) : Bool :=
  ('a' ≤ c ∧ c ≤ 'z') ∨ ('A' ≤ c ∧ c ≤ 'Z') ∨ ('0' ≤ c ∧ c ≤ '9') ∨
    c = '-' ∨ c = '_' ∨ c = '.'

/-- Character class retained by `sanitizeId` / `sanitizeTags`
(`[a-zA-Z0-9\-_]`). -/
def idChar (c : Char) : Bool :=
  ('a' ≤ c ∧ c ≤ 'z') ∨ ('A' ≤ c ∧ c ≤ 'Z') ∨ ('0' ≤ c ∧ c ≤ '9') ∨
    c = '-' ∨ c = '_'

/-- A `CacheKey` on which the factory's sanitization has been applied: every
present field is non-empty and drawn from the sanitizers' retained character
classes. -/
def validCacheKey (k : CacheKey) : Bool :=
  !k.key.isEmpty && k.key.all keyChar &&
    (match k.nspace with
     | some n => !n.isEmpty && n.all keyChar
     | none => true) &&
    (match k.tenantId with
     | some t => !t.isEmpty && t.all idChar
     | none => true) &&
    (match k.userId with
     | some u => !u.isEmpty && u.all idChar
     | none => true) &&
    k.tags.all (fun t => !t.isEmpty && t.all idChar)

end CacheKeyFactory

/-! ## Tiered cache manager (cache-manager.service.ts)

A layer's `service.get` either resolves to a value, resolves to `null`
(a miss), or rejects; `service.set` either resolves to a boolean or rejects.
Rejections are embedded as the `err` constructors.  The manager's own
methods are embedded as pure functions that, besides their return value,
record the per-layer `set` calls they issue (name of the target layer paired
with that layer's outcome) — the effect trace of the operation. -/

/-- Outcome of a layer's `service.get`: a value, a `null` miss, or a
rejected promise. -/
inductive GetOutcome (α : Type) where
  | hit (v : α)
  | miss
  | err
deriving DecidableEq

/-- Outcome of a layer's `service.set` (or `delete`/`clear`): a resolved
boolean or a rejected promise. -/
inductive SetOutcome where
  | ok (b : Bool)
  | err
deriving DecidableEq

/-- A `CacheLayerConfig` entry together with its `ICacheService` behaviour on
the operations the claims exercise. -/
structure Layer (α : Type) where
  name : String
  priority : Int
  enabled : Bool
  readOnly : Bool
  get : CacheKey → GetOutcome α
  set : CacheKey → α → SetOutcome

/-- Layer comparison used by `getSortedLayers` (`a.priority - b.priority`). -/
def priLe {α : Type} (a b : Layer α) : Prop := a.priority ≤ b.priority

instance {α : Type} : DecidableRel (priLe (α := α)) :=
  fun a b => inferInstanceAs (Decidable (a.priority ≤ b.priority))

/-- `getSortedLayers`: the enabled layers sorted by ascending priority
(source lines 715-719). -/
def getSortedLayers {α : Type} (ls : List (Layer α)) : List (Layer α) :=
  List.insertionSort priLe (ls.filter (fun l => l.enabled))

/-- Result of the layer-iteration loop inside `CacheManagerService.get`:
first hit (recording the hitting layer's priority), miss in every layer, or
a rejection — which the source does not catch per layer, so it aborts the
loop and reaches the method's outer `catch`. -/
inductive LoopRes (α : Type) where
  | hitAt (priority : Int) (v : α)
  | missAll
  | errored
deriving DecidableEq

/-- The `for(const layer of this.getSortedLayers())` loop of
`CacheManagerService.get` (source lines 174-192): skip disabled layers,
return on the first non-null value, abort on a rejection. -/
def getLoop {α : Type} (k : CacheKey) : List (Layer α) → LoopRes α
  | [] => .missAll
  | l :: rest =>
    if l.enabled = false then getLoop k rest
    else
      match l.get k with
      | .hit v => .hitAt l.priority v
      | .miss => getLoop k rest
      | .err => .errored

/-- `promoteToHigherLayer` (source lines 729-768): the enabled, non-read-only
layers of strictly lower priority than the hit, sorted ascending, each
receiving a `set` whose failure is caught and ignored.  The returned trace
lists the issued `set` calls. -/
def promoteToHigherLayer {α : Type} (ls : List (Layer α)) (k : CacheKey) (v : α)
    (currentPriority : Int) : List (String × SetOutcome) :=
  (List.insertionSort priLe
      (ls.filter (fun l => l.enabled && !l.readOnly && decide (l.priority < currentPriority)))).map
    (fun l => (l.name, l.set k v))

/-- `CacheManagerService.get` (source lines 168-208): run the layer loop; on
a hit, promote only when the hit layer's priority exceeds 1
(`if (layer.priority > 1)`); a loop rejection reaches the outer `catch`,
which logs and returns `null`.  Returns the value handed to the caller and
the trace of promotion `set` calls. -/
def managerGet {α : Type} (ls : List (Layer α)) (k : CacheKey) :
    Option α × List (String × SetOutcome) :=
  match getLoop k (getSortedLayers ls) with
  | .hitAt p v => (some v, if 1 < p then promoteToHigherLayer ls k v p else [])
  | .missAll => (none, [])
  | .errored => (none, [])

/-- The fan-out loop of `CacheManagerService.set` (source lines 230-250):
skip disabled and read-only layers; each remaining layer's `set` is wrapped
in its own `try`/`catch`, and overall success records whether any layer
resolved `true`. -/
def setLoop {α : Type} (k : CacheKey) (v : α) :
    List (Layer α) → Bool × List (String × SetOutcome)
  | [] => (false, [])
  | l :: rest =>
    if l.enabled = false ∨ l.readOnly = true then setLoop k v rest
    else
      let out := l.set k v
      let acc := setLoop k v rest
      ((out = SetOutcome.ok true : Bool) || acc.1, (l.name, out) :: acc.2)

/-- `CacheManagerService.set` (source lines 218-264): fan out over the sorted
enabled layers.  Returns the boolean result and the trace of attempted
per-layer `set` calls. -/
def managerSet {α : Type} (ls : List (Layer α)) (k : CacheKey) (v : α) :
    Bool × List (String × SetOutcome) :=
  setLoop k v (getSortedLayers ls)

/-! ## Invalidation engine (cache-invalidation.service.ts)

The bound `ICacheService` is embedded by the two operations the engine ever
calls on it, `delete` and `clear`, each resolving to a boolean or rejecting.
Each engine operation returns, besides its result and successor state, the
trace of store operations it issued. -/

/-- The cache store bound to the invalidation engine, by the operations the
engine calls on it. -/
structure Store where
  delete : CacheKey → SetOutcome
  clear : String → SetOutcome

/-- One store operation issued by the engine. -/
inductive StoreOp where
  | del (k : CacheKey)
  | clr (ns : String)
deriving DecidableEq

/-- An `InvalidationRule` (timestamps omitted — no claim depends on them). -/
structure Rule where
  id : String
  name : String
  strategy : String
  pattern : String
  trigger : String
  enabled : Bool
  priority : Int
  condition : Option String
  dependencies : List String
deriving DecidableEq

/-- The engine's rule map (`Map<string, InvalidationRule>`), as an
association list in insertion order. -/
abbrev RulesMap := List (String × Rule)

/-- `Map.get`. -/
def mapGet (m : RulesMap) (ruleId : String) : Option Rule :=
  (m.find? (fun p => p.1 = ruleId)).map (fun p => p.2)

/-- `Map.set`: replace in place when present, append otherwise. -/
def mapSet (m : RulesMap) (ruleId : String) (r : Rule) : RulesMap :=
  if m.any (fun p => p.1 = ruleId) then
    m.map (fun p => if p.1 = ruleId then (ruleId, r) else p)
  else m ++ [(ruleId, r)]

/-- `Map.delete`. -/
def mapDelete (m : RulesMap) (ruleId : String) : RulesMap :=
  m.filter (fun p => ¬p.1 = ruleId)

/-- `InvalidationStats` (the time-derived fields `averageExecutionTime` and
`lastInvalidation`, and `triggerUsage`, which no code path updates, are
omitted). -/
structure Stats where
  totalInvalidations : Nat
  successfulInvalidations : Nat
  failedInvalidations : Nat
  totalInvalidatedKeys : Nat
  activeRules : Nat
  strategyUsage : List (String × Nat)
deriving DecidableEq

/-- The eight supported strategy values of the `InvalidationStrategy` enum. -/
def supportedStrategies : List String :=
  ["exact", "prefix", "suffix", "wildcard", "regex", "tag", "namespace", "batch"]

/-- `initializeStats` (source lines 619-643). -/
def initializeStats : Stats :=
  { totalInvalidations := 0
    successfulInvalidations := 0
    failedInvalidations := 0
    totalInvalidatedKeys := 0
    activeRules := 0
    strategyUsage := supportedStrategies.map (fun s => (s, 0)) }

/-- The mutable state of a `CacheInvalidationService`: rule map, optionally
bound store, statistics and the configured batch size. -/
structure SvcState where
  rules : RulesMap
  cacheService : Option Store
  stats : Stats
  batchSize : Nat

/-- `updateStats` (source lines 909-937): bump the total, exactly one of the
success/failure counters, the invalidated-key total on success, recompute the
active-rule count, and bump the per-strategy usage when the strategy is a
known one. -/
def updateStatsFn (rules : RulesMap) (st : Stats) (strategy : String)
    (invalidatedKeys : Nat) (failed : Bool) : Stats :=
  { totalInvalidations := st.totalInvalidations + 1
    successfulInvalidations :=
      if failed then st.successfulInvalidations else st.successfulInvalidations + 1
    failedInvalidations :=
      if failed then st.failedInvalidations + 1 else st.failedInvalidations
    totalInvalidatedKeys :=
      if failed then st.totalInvalidatedKeys else st.totalInvalidatedKeys + invalidatedKeys
    activeRules := (rules.filter (fun p => p.2.enabled)).length
    strategyUsage :=
      if st.strategyUsage.any (fun p => p.1 = strategy) then
        st.strategyUsage.map (fun p => if p.1 = strategy then (p.1, p.2 + 1) else p)
      else st.strategyUsage }

/-- An `InvalidationResult` (`invalidatedAt`, `executionTime` and `metadata`
omitted — wall-clock and passthrough data no claim depends on). -/
structure InvResult where
  invalidatedKeys : Nat
  invalidatedNamespaces : Nat
  invalidatedTags : Nat
  keys : List String
  namespaces : List String
  tags : List String
  success : Bool
  error : Option String
deriving DecidableEq

/-- A failure result with the given error message, as built by the `catch`
branch of `invalidate` and the short-circuit branches of
`invalidateByRule`. -/
def failResult (msg : String) : InvResult :=
  { invalidatedKeys := 0, invalidatedNamespaces := 0, invalidatedTags := 0
    keys := [], namespaces := [], tags := []
    success := false, error := some msg }

/-- `invalidateExact` (source lines 652-674): parse each target as a full
key string, issue a `delete`, keep targets whose delete resolved `true`;
per-key failures are caught and skipped. -/
def invalidateExact (store : Store) : List String → List String × List StoreOp
  | [] => ([], [])
  | kt :: rest =>
    let ck := CacheKeyFactory.parse kt.toList
    let out := store.delete ck
    let acc := invalidateExact store rest
    ((if out = SetOutcome.ok true then kt :: acc.1 else acc.1), StoreOp.del ck :: acc.2)

/-- `invalidatePrefix` (source lines 683-705): `clear` each prefix as a
namespace, keep the prefixes whose clear resolved `true`. -/
def invalidatePrefixes (store : Store) : List String → List String × List StoreOp
  | [] => ([], [])
  | p :: rest =>
    let out := store.clear p
    let acc := invalidatePrefixes store rest
    ((if out = SetOutcome.ok true then p :: acc.1 else acc.1), StoreOp.clr p :: acc.2)

/-- `invalidateSuffix` (source lines 714-722): the body is a stub — it
returns the empty list and issues no store operation. -/
def invalidateSuffix (_targets : List String) : List String × List StoreOp := ([], [])

/-- `invalidateWildcard` (source lines 731-752): each pattern is only
logged; no store operation is issued and no key is reported invalidated. -/
def invalidateWildcard (_patterns : List String) : List String × List StoreOp := ([], [])

/-- `invalidateRegex` (source lines 761-782): identical stub to
`invalidateWildcard`. -/
def invalidateRegex (_patterns : List String) : List String × List StoreOp := ([], [])

/-- `invalidateTags` (source lines 791-811): every tag is recorded as
invalidated; tag-aware clearing is left to the store, so no store operation
is issued. -/
def invalidateTags (tags : List String) : List String × List StoreOp := (tags, [])

/-- `invalidateNamespaces` (source lines 820-840): `clear` each namespace,
keep those whose clear resolved `true`. -/
def invalidateNamespaces (store : Store) : List String → List String × List StoreOp
  | [] => ([], [])
  | ns :: rest =>
    let out := store.clear ns
    let acc := invalidateNamespaces store rest
    ((if out = SetOutcome.ok true then ns :: acc.1 else acc.1), StoreOp.clr ns :: acc.2)

/-- Split a list into chunks of `bs1 + 1` elements (the `i += batchSize`
loop of `invalidateBatch`; the effective batch size is always positive
because `this.config.batchSize || 100` replaces a zero). -/
def chunkListPos (bs1 : Nat) : List String → List (List String)
  | [] => []
  | a :: l => ((a :: l).take (bs1 + 1)) :: chunkListPos bs1 (l.drop bs1)
termination_by l => l.length
decreasing_by simp only [List.length_cons, List.length_drop]; omega

/-- `invalidateBatch` (source lines 849-871): apply `invalidateExact` to
each `batchSize`-sized chunk in order, concatenating the results. -/
def invalidateBatch (store : Store) (batchSize : Nat) (targets : List String) :
    List String × List StoreOp :=
  ((chunkListPos (batchSize - 1) targets).map (invalidateExact store)).foldr
    (fun r acc => (r.1 ++ acc.1, r.2 ++ acc.2)) ([], [])

/-- `evaluateCondition` (source lines 881-898): the simplified source always
returns `true`. -/
def evaluateCondition (_condition : String) : Bool := true

/-- `CacheInvalidationService.invalidate` (source lines 393-497): the whole
body sits in one `try` whose `catch` converts any thrown error — the unbound
store and the unsupported strategy — into a failure result; dispatch on the
strategy; on success the result carries the per-branch lists and counts and
statistics are updated as a success. -/
def invalidate (st : SvcState) (targets : List String) (strategy : String) :
    InvResult × SvcState × List StoreOp :=
  match st.cacheService with
  | none =>
    (failResult "Cache service not set",
     { st with stats := updateStatsFn st.rules st.stats strategy 0 true }, [])
  | some store =>
    let effBatch := if st.batchSize = 0 then 100 else st.batchSize
    let dispatched : Option (List String × List String × List String × List StoreOp) :=
      if strategy = "exact" then
        let r := invalidateExact store targets; some (r.1, [], [], r.2)
      else if strategy = "prefix" then
        let r := invalidatePrefixes store targets; some ([], r.1, [], r.2)
      else if strategy = "suffix" then
        let r := invalidateSuffix targets; some (r.1, [], [], r.2)
      else if strategy = "wildcard" then
        let r := invalidateWildcard targets; some (r.1, [], [], r.2)
      else if strategy = "regex" then
        let r := invalidateRegex targets; some (r.1, [], [], r.2)
      else if strategy = "tag" then
        let r := invalidateTags targets; some ([], [], r.1, r.2)
      else if strategy = "namespace" then
        let r := invalidateNamespaces store targets; some ([], r.1, [], r.2)
      else if strategy = "batch" then
        let r := invalidateBatch store effBatch targets; some (r.1, [], [], r.2)
      else none
    match dispatched with
    | none =>
      (failResult ("Unsupported invalidation strategy: " ++ strategy),
       { st with stats := updateStatsFn st.rules st.stats strategy 0 true }, [])
    | some (ks, nss, tgs, tr) =>
      ({ invalidatedKeys := ks.length, invalidatedNamespaces := nss.length,
         invalidatedTags := tgs.length, keys := ks, namespaces := nss, tags := tgs,
         success := true, error := none },
       { st with stats := updateStatsFn st.rules st.stats strategy ks.length false }, tr)

/-- `CacheInvalidationService.invalidateByRule` (source lines 506-582): a
missing rule throws to the caller (`Except.error`); a disabled rule, an
unmet condition or an unsatisfied dependency short-circuit to a failure
result without touching statistics or the store; otherwise the rule's
pattern and strategy are delegated to `invalidate`. -/
def invalidateByRule (st : SvcState) (ruleId : String) :
    Except String (InvResult × SvcState × List StoreOp) :=
  match mapGet st.rules ruleId with
  | none => .error ("Invalidation rule not found: " ++ ruleId)
  | some rule =>
    if rule.enabled = false then .ok (failResult "Rule is disabled", st, [])
    else if (match rule.condition with
             | some c => !evaluateCondition c
             | none => false) then .ok (failResult "Condition not met", st, [])
    else if rule.dependencies.any
        (fun d => match mapGet st.rules d with
                  | none => true
                  | some dr => !dr.enabled) then
      .ok (failResult "Dependency not satisfied", st, [])
    else .ok (invalidate st [rule.pattern] rule.strategy)

/-- `removeRule` (source lines 280-311): absent id returns `false` and
leaves everything unchanged; otherwise the rule is deleted. -/
def removeRule (st : SvcState) (ruleId : String) : Bool × SvcState :=
  match mapGet st.rules ruleId with
  | none => (false, st)
  | some _ => (true, { st with rules := mapDelete st.rules ruleId })

/-- `updateRule` (source lines 320-357): absent id returns `false` and
leaves everything unchanged; otherwise the stored rule is replaced by the
spread `{...existing, ...updates}`, embedded as applying the update
function. -/
def updateRule (st : SvcState) (ruleId : String) (updates : Rule → Rule) :
    Bool × SvcState :=
  match mapGet st.rules ruleId with
  | none => (false, st)
  | some r => (true, { st with rules := mapSet st.rules ruleId (updates r) })

/-- One external call to the engine, for reasoning about call sequences. -/
inductive SvcCall where
  | invCall (targets : List String) (strategy : String)
  | ruleCall (ruleId : String)

/-- The state reached after one call (a thrown `RuleNotFoundError` leaves
the state unchanged: it is raised before any mutation). -/
def svcStep (st : SvcState) : SvcCall → SvcState
  | .invCall t s => (invalidate st t s).2.1
  | .ruleCall ruleId =>
    match invalidateByRule st ruleId with
    | .error _ => st
    | .ok (_, st', _) => st'

/-- The state reached after a sequence of calls. -/
def svcRun (st : SvcState) (cs : List SvcCall) : SvcState := cs.foldl svcStep st

/-- Whether an `Except` completed normally. -/
def exceptOk {ε : Type} {β : Type} : Except ε β → Bool
  | .ok _ => true
  | .error _ => false

/-- The statistics ledger balances: the total count equals successes plus
failures. -/
def statsBalanced (s : Stats) : Prop :=
  s.totalInvalidations = s.successfulInvalidations + s.failedInvalidations

instance (s : Stats) : Decidable (statsBalanced s) :=
  inferInstanceAs (Decidable (_ = _))

/-! ## Concrete instances used to evaluate the theorems -/

/-- A sanitized key whose base key is the single word `value`. -/
def keyValueOnly : CacheKey := ⟨"value".toList, none, none, none, none, []⟩

/-- A fully populated, sanitized, unambiguous key. -/
def keyFull : CacheKey :=
  ⟨"profile".toList, some "ns1".toList, some "v2".toList, some "t1".toList,
   some "u9".toList, ["aa".toList, "bb".toList]⟩

/-- A plain lookup key for the manager scenarios. -/
def keyDemo : CacheKey := ⟨"k".toList, none, none, none, none, []⟩

/-- An enabled, writable, priority-0 layer that misses. -/
def layerPrio0 : Layer Nat :=
  ⟨"layer0", 0, true, false, fun _ => .miss, fun _ _ => .ok true⟩

/-- An enabled layer of priority 1 that hits with 42. -/
def layerPrio1Hit : Layer Nat :=
  ⟨"layer1", 1, true, false, fun _ => .hit 42, fun _ _ => .ok true⟩

/-- An enabled, writable, priority-1 layer that misses. -/
def layerPrio1Miss : Layer Nat :=
  ⟨"w1", 1, true, false, fun _ => .miss, fun _ _ => .ok true⟩

/-- An enabled layer of priority 2 that hits with 7. -/
def layerPrio2Hit : Layer Nat :=
  ⟨"w2", 2, true, false, fun _ => .hit 7, fun _ _ => .ok true⟩

/-- An enabled priority-1 layer whose `get` rejects. -/
def layerPrio1Err : Layer Nat :=
  ⟨"err1", 1, true, false, fun _ => .err, fun _ _ => .ok true⟩

/-- A read-only enabled layer. -/
def layerReadOnly : Layer Nat :=
  ⟨"ro", 1, true, true, fun _ => .miss, fun _ _ => .ok true⟩

/-- An enabled writable layer whose `set` rejects. -/
def layerSetErr : Layer Nat :=
  ⟨"thrower", 2, true, false, fun _ => .miss, fun _ _ => .err⟩

/-- An enabled writable layer whose `set` succeeds. -/
def layerSetOk : Layer Nat :=
  ⟨"writer", 3, true, false, fun _ => .miss, fun _ _ => .ok true⟩

/-- A store on which every operation succeeds. -/
def storeDemo : Store := ⟨fun _ => .ok true, fun _ => .ok true⟩

/-- A disabled invalidation rule. -/
def ruleDisabled : Rule :=
  ⟨"r1", "disabled-rule", "exact", "p", "manual", false, 1, none, []⟩

/-- Engine state with no bound store. -/
def svcUnbound : SvcState := ⟨[("r1", ruleDisabled)], none, initializeStats, 100⟩

/-- Engine state with a bound store and one disabled rule. -/
def svcBound : SvcState :=
  ⟨[("r1", ruleDisabled)], some storeDemo, initializeStats, 100⟩

/-! ## Theorems -/

/-- C10: for every rule id absent from the rule map, `removeRule` returns
`false` and leaves the state (in particular the rule map) unchanged, and
`updateRule` with any update likewise returns `false` and changes nothing;
neither can throw, being total functions of the state. -/
theorem claim10_absent_rule_noop (st : SvcState) (ruleId : String)
    (h : mapGet st.rules ruleId = none) :
    removeRule st ruleId = (false, st) ∧
      ∀ updates : Rule → Rule, updateRule st ruleId updates = (false, st) := by
  refine ⟨?_, fun updates => ?_⟩
  · unfold removeRule
    rw [h]
  · unfold updateRule
    rw [h]

/-- C10 witness: the id `nope` is absent from the demo state's rule map, and
both operations return `false` with the state unchanged. -/
theorem claim10_absent_rule_noop_witness :
    mapGet svcBound.rules "nope" = none ∧
      removeRule svcBound "nope" = (false, svcBound) ∧
      updateRule svcBound "nope" id = (false, svcBound) :=
  ⟨by decide,
   (claim10_absent_rule_noop svcBound "nope" (by decide)).1,
   (claim10_absent_rule_noop svcBound "nope" (by decide)).2 id⟩

/-- C8: `invalidateByRule` on a present but disabled rule returns normally
(no exception) with a result whose `success` is `false` and whose `error` is
`Rule is disabled`, leaves the engine state untouched, and issues no store
operation. -/
theorem claim8_disabled_rule_short_circuit (st : SvcState) (ruleId : String)
    (r : Rule) (hget : mapGet st.rules ruleId = some r) (hdis : r.enabled = false) :
    invalidateByRule st ruleId =
      .ok ({ invalidatedKeys := 0, invalidatedNamespaces := 0, invalidatedTags := 0,
             keys := [], namespaces := [], tags := [],
             success := false, error := some "Rule is disabled" }, st, []) := by
  unfold invalidateByRule
  rw [hget]
  simp [hdis, failResult]

/-- C8 witness: the demo state's rule `r1` is disabled and the call returns
the disabled result with no store operations. -/
theorem claim8_disabled_rule_short_circuit_witness :
    mapGet svcBound.rules "r1" = some ruleDisabled ∧
      ruleDisabled.enabled = false ∧
      invalidateByRule svcBound "r1" =
        .ok ({ invalidatedKeys := 0, invalidatedNamespaces := 0, invalidatedTags := 0,
               keys := [], namespaces := [], tags := [],
               success := false, error := some "Rule is disabled" }, svcBound, []) :=
  ⟨by decide, by decide,
   claim8_disabled_rule_short_circuit svcBound "r1" ruleDisabled (by decide) (by decide)⟩

/-- C6 counterexample: with no store bound, `invalidate` does not raise —
the thrown `Cache service not set` error is caught by the method's own
`catch` and handed back as an ordinary result object with `success = false`,
refuting the claim that the failure is raised to the caller rather than
converted into a result. -/
theorem claim6_counterexample :
    (invalidate svcUnbound ["k1"] "exact").1.success = false ∧
      (invalidate svcUnbound ["k1"] "exact").1.error = some "Cache service not set" ∧
      (invalidate svcUnbound ["k1"] "exact").2.2 = [] := by
  decide

/-- C6 amended: with no store bound, every `invalidate` call completes
normally with the failure result `Cache service not set`, updates the
statistics as a failed invalidation, and issues no store operation. -/
theorem claim6_amended_unbound_returns_result (st : SvcState)
    (targets : List String) (strategy : String) (h : st.cacheService = none) :
    invalidate st targets strategy =
      (failResult "Cache service not set",
       { st with stats := updateStatsFn st.rules st.stats strategy 0 true }, []) := by
  unfold invalidate
  rw [h]

/-- C6 witness: the amended theorem evaluated on the unbound demo state. -/
theorem claim6_amended_unbound_returns_result_witness :
    svcUnbound.cacheService = none ∧
      invalidate svcUnbound ["k1"] "exact" =
        (failResult "Cache service not set",
         { svcUnbound with
             stats := updateStatsFn svcUnbound.rules svcUnbound.stats "exact" 0 true }, []) :=
  ⟨rfl, claim6_amended_unbound_returns_result svcUnbound ["k1"] "exact" rfl⟩

/-- C5 counterexample: with a bound store, `invalidate` with the unknown
strategy `unknown` does not raise — the thrown `Unsupported invalidation
strategy` error is caught by the method's own `catch` and handed back as an
ordinary result object, refuting the claim that it reaches the caller as a
precondition failure. -/
theorem claim5_counterexample :
    (invalidate svcBound ["k1"] "unknown").1.success = false ∧
      (invalidate svcBound ["k1"] "unknown").1.error =
        some "Unsupported invalidation strategy: unknown" ∧
      (invalidate svcBound ["k1"] "unknown").2.2 = [] := by
  decide

/-- C5 amended: with a bound store, every `invalidate` call whose strategy
is outside the eight supported values completes normally with the failure
result `Unsupported invalidation strategy: <strategy>`, updates the
statistics as a failed invalidation, and issues no store operation. -/
theorem claim5_amended_unsupported_returns_result (st : SvcState) (store : Store)
    (targets : List String) (strategy : String)
    (hs : st.cacheService = some store) (h : strategy ∉ supportedStrategies) :
    invalidate st targets strategy =
      (failResult ("Unsupported invalidation strategy: " ++ strategy),
       { st with stats := updateStatsFn st.rules st.stats strategy 0 true }, []) := by
  simp only [supportedStrategies, List.mem_cons, List.not_mem_nil, or_false] at h
  push_neg at h
  obtain ⟨h1, h2, h3, h4, h5, h6, h7, h8⟩ := h
  unfold invalidate
  rw [hs]
  simp only [h1, h2, h3, h4, h5, h6, h7, h8, if_false]

/-- C5 witness: the amended theorem evaluated on the bound demo state with
the strategy `unknown`. -/
theorem claim5_amended_unsupported_returns_result_witness :
    svcBound.cacheService = some storeDemo ∧
      "unknown" ∉ supportedStrategies ∧
      invalidate svcBound ["k1"] "unknown" =
        (failResult "Unsupported invalidation strategy: unknown",
         { svcBound with
             stats := updateStatsFn svcBound.rules svcBound.stats "unknown" 0 true }, []) :=
  ⟨rfl, by decide,
   claim5_amended_unsupported_returns_result svcBound storeDemo ["k1"] "unknown" rfl
     (by decide)⟩

/-- C7: with a bound store (which, per the `ICacheService` interface the
engine is written against, has no key-enumeration capability), `invalidate`
with strategy `wildcard` or `regex` issues no `delete` or `clear` operation
and returns a result with `success = true` and `invalidatedKeys = 0`. -/
theorem claim7_wildcard_regex_noop (st : SvcState) (store : Store)
    (targets : List String) (strategy : String)
    (hs : st.cacheService = some store)
    (h : strategy = "wildcard" ∨ strategy = "regex") :
    (invalidate st targets strategy).1.success = true ∧
      (invalidate st targets strategy).1.invalidatedKeys = 0 ∧
      (invalidate st targets strategy).2.2 = [] := by
  have e1 : ("wildcard" : String) ≠ "exact" := by decide
  have e2 : ("wildcard" : String) ≠ "prefix" := by decide
  have e3 : ("wildcard" : String) ≠ "suffix" := by decide
  have f1 : ("regex" : String) ≠ "exact" := by decide
  have f2 : ("regex" : String) ≠ "prefix" := by decide
  have f3 : ("regex" : String) ≠ "suffix" := by decide
  have f4 : ("regex" : String) ≠ "wildcard" := by decide
  rcases h with h | h <;> subst h <;>
    · unfold invalidate
      rw [hs]
      simp [e1, e2, e3, f1, f2, f3, f4, invalidateWildcard, invalidateRegex]

/-- C7 witness: a wildcard invalidation against the bound demo store. -/
theorem claim7_wildcard_regex_noop_witness :
    svcBound.cacheService = some storeDemo ∧
      ((invalidate svcBound ["user:*"] "wildcard").1.success = true ∧
        (invalidate svcBound ["user:*"] "wildcard").1.invalidatedKeys = 0 ∧
        (invalidate svcBound ["user:*"] "wildcard").2.2 = []) :=
  ⟨rfl,
   claim7_wildcard_regex_noop svcBound storeDemo ["user:*"] "wildcard" rfl (Or.inl rfl)⟩

/-- Every completed `invalidate` call bumps `totalInvalidations` by exactly
one and exactly one of the success/failure counters. -/
theorem invalidate_stats_step (st : SvcState) (targets : List String)
    (strategy : String) :
    (invalidate st targets strategy).2.1.stats.totalInvalidations =
        st.stats.totalInvalidations + 1 ∧
      (((invalidate st targets strategy).2.1.stats.successfulInvalidations =
            st.stats.successfulInvalidations + 1 ∧
          (invalidate st targets strategy).2.1.stats.failedInvalidations =
            st.stats.failedInvalidations) ∨
        ((invalidate st targets strategy).2.1.stats.successfulInvalidations =
            st.stats.successfulInvalidations ∧
          (invalidate st targets strategy).2.1.stats.failedInvalidations =
            st.stats.failedInvalidations + 1)) := by
  unfold invalidate
  cases hsv : st.cacheService with
  | none => simp [updateStatsFn]
  | some store =>
    dsimp only
    split_ifs <;> simp [updateStatsFn]

/-- A normally-completed `invalidateByRule` either left the state untouched
(one of the short-circuit branches) or handed the state to `invalidate`. -/
theorem invalidateByRule_state (st : SvcState) (ruleId : String)
    (res : InvResult) (st' : SvcState) (tr : List StoreOp)
    (h : invalidateByRule st ruleId = .ok (res, st', tr)) :
    st' = st ∨ ∃ rule : Rule, mapGet st.rules ruleId = some rule ∧
      (res, st', tr) = invalidate st [rule.pattern] rule.strategy := by
  unfold invalidateByRule at h
  split at h
  · exact absurd h (by simp)
  · split_ifs at h
    · exact Or.inl (by injection h with h'; exact (congrArg (fun p => p.2.1) h').symm)
    · exact Or.inl (by injection h with h'; exact (congrArg (fun p => p.2.1) h').symm)
    · exact Or.inl (by injection h with h'; exact (congrArg (fun p => p.2.1) h').symm)
    · next rule heq _ _ _ =>
        exact Or.inr ⟨rule, heq, by injection h with h'; exact h'.symm⟩

/-- One engine call preserves the balance of the statistics ledger. -/
theorem svcStep_balanced (st : SvcState) (c : SvcCall)
    (hb : statsBalanced st.stats) : statsBalanced (svcStep st c).stats := by
  cases c with
  | invCall targets strategy =>
    obtain ⟨h1, h2⟩ := invalidate_stats_step st targets strategy
    simp only [svcStep]
    unfold statsBalanced at hb ⊢
    rcases h2 with ⟨hs, hf⟩ | ⟨hs, hf⟩ <;> omega
  | ruleCall ruleId =>
    simp only [svcStep]
    cases hr : invalidateByRule st ruleId with
    | error e => exact hb
    | ok triple =>
      obtain ⟨res, st', tr⟩ := triple
      dsimp only
      rcases invalidateByRule_state st ruleId res st' tr hr with h | ⟨rule, _, heq⟩
      · rw [h]; exact hb
      · have hst : st' = (invalidate st [rule.pattern] rule.strategy).2.1 := by
          rw [← heq]
        obtain ⟨h1, h2⟩ := invalidate_stats_step st [rule.pattern] rule.strategy
        unfold statsBalanced at hb ⊢
        rw [hst]
        rcases h2 with ⟨hs, hf⟩ | ⟨hs, hf⟩ <;> omega

/-- C9 amended: after every sequence of `invalidate` / `invalidateByRule`
calls the statistics satisfy `totalInvalidations = successfulInvalidations +
failedInvalidations`; every `invalidate` call increments
`totalInvalidations` by exactly one together with exactly one of the two
sub-counters; but an `invalidateByRule` call that short-circuits (disabled
rule, unmet condition, unsatisfied dependency) completes without
incrementing any counter, and one whose rule is missing throws before any
mutation — only delegation to `invalidate` counts. -/
theorem claim9_amended_stats_ledger :
    (∀ (st : SvcState) (targets : List String) (strategy : String),
      (invalidate st targets strategy).2.1.stats.totalInvalidations =
          st.stats.totalInvalidations + 1 ∧
        (((invalidate st targets strategy).2.1.stats.successfulInvalidations =
              st.stats.successfulInvalidations + 1 ∧
            (invalidate st targets strategy).2.1.stats.failedInvalidations =
              st.stats.failedInvalidations) ∨
          ((invalidate st targets strategy).2.1.stats.successfulInvalidations =
              st.stats.successfulInvalidations ∧
            (invalidate st targets strategy).2.1.stats.failedInvalidations =
              st.stats.failedInvalidations + 1))) ∧
      (∀ (st : SvcState) (cs : List SvcCall),
        statsBalanced st.stats → statsBalanced (svcRun st cs).stats) := by
  refine ⟨invalidate_stats_step, fun st cs => ?_⟩
  induction cs generalizing st with
  | nil => exact fun h => h
  | cons c rest ih =>
    intro hb
    exact ih (svcStep st c) (svcStep_balanced st c hb)

/-- C9 witness: the amended theorem evaluated on the bound demo state and a
concrete two-call sequence. -/
theorem claim9_amended_stats_ledger_witness :
    statsBalanced svcBound.stats ∧
      (invalidate svcBound ["k1"] "exact").2.1.stats.totalInvalidations =
        svcBound.stats.totalInvalidations + 1 ∧
      statsBalanced
        (svcRun svcBound [SvcCall.invCall ["k1"] "exact", SvcCall.ruleCall "r1"]).stats :=
  ⟨by decide,
   (claim9_amended_stats_ledger.1 svcBound ["k1"] "exact").1,
   claim9_amended_stats_ledger.2 svcBound
     [SvcCall.invCall ["k1"] "exact", SvcCall.ruleCall "r1"] (by decide)⟩

/-- C9 counterexample: `invalidateByRule` on the disabled rule `r1`
completes normally (no exception) yet leaves the statistics — in particular
`totalInvalidations` — entirely unchanged, refuting the claim that each
completed call increments `totalInvalidations` by exactly one. -/
theorem claim9_counterexample :
    exceptOk (invalidateByRule svcBound "r1") = true ∧
      (svcStep svcBound (SvcCall.ruleCall "r1")).stats = svcBound.stats := by
  constructor
  · rfl
  · rfl

/-- A layer is in `getSortedLayers` exactly when it is an enabled member of
the layer list. -/
theorem mem_getSortedLayers {α : Type} (ls : List (Layer α)) (l : Layer α) :
    l ∈ getSortedLayers ls ↔ l ∈ ls ∧ l.enabled = true := by
  unfold getSortedLayers
  rw [List.mem_insertionSort, List.mem_filter]

/-- The fan-out loop of `set` resolves `true` exactly when some enabled,
writable layer in the list accepted the write. -/
theorem setLoop_fst {α : Type} (k : CacheKey) (v : α) (L : List (Layer α)) :
    (setLoop k v L).1 = true ↔
      ∃ l ∈ L, l.enabled = true ∧ l.readOnly = false ∧ l.set k v = SetOutcome.ok true := by
  induction L with
  | nil => simp [setLoop]
  | cons l rest ih =>
    by_cases h : l.enabled = false ∨ l.readOnly = true
    · rw [show setLoop k v (l :: rest) = setLoop k v rest by rw [setLoop, if_pos h], ih]
      constructor
      · rintro ⟨l', hl', hp⟩
        exact ⟨l', List.mem_cons_of_mem _ hl', hp⟩
      · rintro ⟨l', hl', he, hro, hset⟩
        rcases List.mem_cons.mp hl' with rfl | hl'
        · rcases h with h | h
          · rw [he] at h; cases h
          · rw [hro] at h; cases h
        · exact ⟨l', hl', he, hro, hset⟩
    · push_neg at h
      obtain ⟨he, hro⟩ := h
      have he' : l.enabled = true := by revert he; cases l.enabled <;> simp
      have hro' : l.readOnly = false := by revert hro; cases l.readOnly <;> simp
      rw [setLoop, if_neg (by simp [he', hro'])]
      simp only [Bool.or_eq_true, decide_eq_true_eq]
      rw [ih]
      constructor
      · rintro (hset | ⟨l', hl', hp⟩)
        · exact ⟨l, List.mem_cons_self l rest, he', hro', hset⟩
        · exact ⟨l', List.mem_cons_of_mem _ hl', hp⟩
      · rintro ⟨l', hl', he2, hro2, hset⟩
        rcases List.mem_cons.mp hl' with rfl | hl'
        · exact Or.inl hset
        · exact Or.inr ⟨l', hl', he2, hro2, hset⟩

/-- The fan-out loop of `set` attempts exactly the enabled, writable layers,
in order, regardless of individual outcomes. -/
theorem setLoop_trace {α : Type} (k : CacheKey) (v : α) (L : List (Layer α)) :
    (setLoop k v L).2 =
      (L.filter (fun l => l.enabled && !l.readOnly)).map (fun l => (l.name, l.set k v)) := by
  induction L with
  | nil => rfl
  | cons l rest ih =>
    by_cases h : l.enabled = false ∨ l.readOnly = true
    · have hf : (l.enabled && !l.readOnly) = false := by
        rcases h with h | h <;> simp [h]
      rw [show setLoop k v (l :: rest) = setLoop k v rest by rw [setLoop, if_pos h]]
      rw [List.filter_cons, hf]
      simpa using ih
    · push_neg at h
      obtain ⟨he, hro⟩ := h
      have he' : l.enabled = true := by revert he; cases l.enabled <;> simp
      have hro' : l.readOnly = false := by revert hro; cases l.readOnly <;> simp
      have hf : (l.enabled && !l.readOnly) = true := by simp [he', hro']
      rw [setLoop, if_neg (by simp [he', hro'])]
      rw [List.filter_cons, hf]
      simpa using ih

/-- C4: `set` fans out to exactly the enabled, non-read-only layers — each
of them is attempted even when another layer's `set` rejects, while disabled
and read-only layers receive no write — and the overall result is `true` if
and only if at least one such layer's `set` resolved `true`. -/
theorem claim4_fanout_set {α : Type} (ls : List (Layer α)) (k : CacheKey) (v : α) :
    ((managerSet ls k v).1 = true ↔
      ∃ l ∈ ls, l.enabled = true ∧ l.readOnly = false ∧ l.set k v = SetOutcome.ok true) ∧
    (managerSet ls k v).2 =
      ((getSortedLayers ls).filter (fun l => l.enabled && !l.readOnly)).map
        (fun l => (l.name, l.set k v)) ∧
    (∀ l ∈ ls, l.enabled = true → l.readOnly = false →
      (l.name, l.set k v) ∈ (managerSet ls k v).2) := by
  refine ⟨?_, setLoop_trace k v (getSortedLayers ls), ?_⟩
  · rw [managerSet, setLoop_fst]
    constructor
    · rintro ⟨l, hl, hp⟩
      exact ⟨l, ((mem_getSortedLayers ls l).mp hl).1, hp⟩
    · rintro ⟨l, hl, he, hro, hset⟩
      exact ⟨l, (mem_getSortedLayers ls l).mpr ⟨hl, he⟩, he, hro, hset⟩
  · intro l hl he hro
    rw [managerSet, setLoop_trace]
    apply List.mem_map_of_mem
    rw [List.mem_filter]
    exact ⟨(mem_getSortedLayers ls l).mpr ⟨hl, he⟩, by simp [he, hro]⟩

/-- C4 witness: one read-only, one rejecting and one accepting layer — the
write succeeds overall, the rejecting layer was still attempted, and the
read-only layer was not. -/
theorem claim4_fanout_set_witness :
    (managerSet [layerReadOnly, layerSetErr, layerSetOk] keyDemo 5).1 = true ∧
      ("thrower", SetOutcome.err) ∈
        (managerSet [layerReadOnly, layerSetErr, layerSetOk] keyDemo 5).2 ∧
      ("writer", SetOutcome.ok true) ∈
        (managerSet [layerReadOnly, layerSetErr, layerSetOk] keyDemo 5).2 := by
  obtain ⟨h1, _, h3⟩ := claim4_fanout_set [layerReadOnly, layerSetErr, layerSetOk] keyDemo 5
  refine ⟨h1.mpr ⟨layerSetOk, by simp, rfl, rfl, rfl⟩, ?_, ?_⟩
  · exact h3 layerSetErr (by simp) rfl rfl
  · exact h3 layerSetOk (by simp) rfl rfl

/-- C1 counterexample: a manager with an enabled, writable priority-0 layer
and a priority-1 layer that hits.  The read returns the value but, because
of the `layer.priority > 1` guard, no promotion `set` is issued at all —
the priority-0 layer receives nothing, refuting the claim that a hit in a
priority-1 layer promotes to an enabled layer of priority 0. -/
theorem claim1_counterexample :
    managerGet [layerPrio0, layerPrio1Hit] keyDemo = (some 42, []) ∧
      layerPrio0.enabled = true ∧ layerPrio0.readOnly = false ∧
      layerPrio0.priority < layerPrio1Hit.priority := by
  refine ⟨by decide, rfl, rfl, by decide⟩

/-- C1 amended: when the read hits in a layer of priority `p`, the value is
returned unchanged (whatever the promotion outcomes), and promotion happens
exactly under the source's `layer.priority > 1` guard: if `p > 1` every
enabled, non-read-only layer of strictly lower priority receives a `set` of
the found value, and if `p ≤ 1` no promotion `set` is issued at all. -/
theorem claim1_amended_promotion {α : Type} (ls : List (Layer α)) (k : CacheKey)
    (p : Int) (v : α) (h : getLoop k (getSortedLayers ls) = LoopRes.hitAt p v) :
    (managerGet ls k).1 = some v ∧
      (1 < p → ∀ l ∈ ls, l.enabled = true → l.readOnly = false → l.priority < p →
        (l.name, l.set k v) ∈ (managerGet ls k).2) ∧
      (¬1 < p → (managerGet ls k).2 = []) := by
  unfold managerGet
  rw [h]
  refine ⟨rfl, ?_, ?_⟩
  · intro hp l hl he hro hpr
    show (l.name, l.set k v) ∈ if 1 < p then promoteToHigherLayer ls k v p else []
    rw [if_pos hp]
    unfold promoteToHigherLayer
    apply List.mem_map_of_mem
    rw [List.mem_insertionSort, List.mem_filter]
    exact ⟨hl, by simp [he, hro, hpr]⟩
  · intro hp
    show (if 1 < p then promoteToHigherLayer ls k v p else []) = []
    rw [if_neg hp]

/-- C1 witness: a hit at priority 2 with an enabled, writable priority-1
layer present — the value is returned and the priority-1 layer receives the
promotion `set`. -/
theorem claim1_amended_promotion_witness :
    getLoop keyDemo (getSortedLayers [layerPrio1Miss, layerPrio2Hit]) =
        LoopRes.hitAt 2 7 ∧
      (1 : Int) < 2 ∧
      (managerGet [layerPrio1Miss, layerPrio2Hit] keyDemo).1 = some 7 ∧
      ("w1", SetOutcome.ok true) ∈ (managerGet [layerPrio1Miss, layerPrio2Hit] keyDemo).2 := by
  have h : getLoop keyDemo (getSortedLayers [layerPrio1Miss, layerPrio2Hit]) =
      LoopRes.hitAt 2 7 := by decide
  obtain ⟨h1, h2, _⟩ :=
    claim1_amended_promotion [layerPrio1Miss, layerPrio2Hit] keyDemo 2 7 h
  exact ⟨h, by decide, h1, h2 (by decide) layerPrio1Miss (by simp) rfl rfl (by decide)⟩

/-- When the sorted enabled layers reach a layer whose `get` rejects after
only misses, the loop result is `errored`. -/
theorem getLoop_append_errored {α : Type} (k : CacheKey) (L₁ : List (Layer α))
    (E : Layer α) (L₂ : List (Layer α)) (h1 : ∀ l ∈ L₁, l.get k = GetOutcome.miss)
    (he : E.enabled = true) (hge : E.get k = GetOutcome.err) :
    getLoop k (L₁ ++ E :: L₂) = LoopRes.errored := by
  induction L₁ with
  | nil => simp [getLoop, he, hge]
  | cons l rest ih =>
    have hm : l.get k = GetOutcome.miss := h1 l (by simp)
    have ih' := ih (fun l' hl' => h1 l' (by simp [hl']))
    by_cases hl : l.enabled = false
    · simp [getLoop, hl, ih']
    · simp [getLoop, hl, hm, ih']

/-- C2 counterexample: the priority-1 layer's `get` rejects while the
enabled priority-2 layer holds the key with value 7; the manager returns
`null` — the remaining layer is never consulted — refuting the claim that
the read continues and returns 7.  (No exception reaches the caller, which
the total return value also witnesses.) -/
theorem claim2_counterexample :
    managerGet [layerPrio1Err, layerPrio2Hit] keyDemo = (none, []) ∧
      layerPrio2Hit.enabled = true ∧
      layerPrio2Hit.get keyDemo = GetOutcome.hit 7 := by
  refine ⟨by decide, rfl, rfl⟩

/-- C2 amended: when an enabled layer's `get` rejects after the earlier
layers in priority order missed, the rejection is caught only by the
method-level `catch`: the whole read returns `null` (a miss) with no
promotion, without consulting the remaining layers — even when a later
enabled layer holds the key — and the caller observes no exception. -/
theorem claim2_amended_error_aborts {α : Type} (ls : List (Layer α)) (k : CacheKey)
    (L₁ : List (Layer α)) (E : Layer α) (L₂ : List (Layer α))
    (hdecomp : getSortedLayers ls = L₁ ++ E :: L₂)
    (h1 : ∀ l ∈ L₁, l.get k = GetOutcome.miss)
    (he : E.enabled = true) (hge : E.get k = GetOutcome.err) :
    managerGet ls k = (none, []) := by
  unfold managerGet
  rw [hdecomp, getLoop_append_errored k L₁ E L₂ h1 he hge]

/-- C2 witness: the amended theorem evaluated on the two concrete layers of
the counterexample scenario. -/
theorem claim2_amended_error_aborts_witness :
    getSortedLayers [layerPrio1Err, layerPrio2Hit] =
        [] ++ layerPrio1Err :: [layerPrio2Hit] ∧
      layerPrio1Err.enabled = true ∧
      layerPrio1Err.get keyDemo = GetOutcome.err ∧
      managerGet [layerPrio1Err, layerPrio2Hit] keyDemo = (none, []) :=
  ⟨rfl, rfl, rfl,
   claim2_amended_error_aborts [layerPrio1Err, layerPrio2Hit] keyDemo []
     layerPrio1Err [layerPrio2Hit] rfl (by simp) rfl rfl⟩

/-- Unfolding `List.intercalate` over a two-or-more element list. -/
theorem intercalate_cons₂ {α : Type} (sep x y : List α) (ys : List (List α)) :
    List.intercalate sep (x :: y :: ys) = x ++ sep ++ List.intercalate sep (y :: ys) := by
  simp [List.intercalate, List.intersperse]

/-- `List.intercalate` over a singleton. -/
theorem intercalate_single {α : Type} (sep x : List α) :
    List.intercalate sep [x] = x := by
  simp [List.intercalate, List.intersperse]

/-- A character different from the separator and absent from every piece is
absent from the joined string. -/
theorem not_mem_intercalate (c d : Char) (l : List Str) (hcd : c ≠ d)
    (h : ∀ x ∈ l, c ∉ x) : c ∉ List.intercalate [d] l := by
  induction l with
  | nil => simp [List.intercalate]
  | cons x xs ih =>
    cases xs with
    | nil =>
      rw [intercalate_single]
      exact h x (by simp)
    | cons y ys =>
      rw [intercalate_cons₂]
      intro hmem
      rcases List.mem_append.mp hmem with hmem | hmem
      · rcases List.mem_append.mp hmem with hmem | hmem
        · exact h x (by simp) hmem
        · exact hcd (by simpa using hmem)
      · exact ih (fun z hz => h z (by simp [hz])) hmem

open CacheKeyFactory in
/-- The serialized key string is the `:`-join of the flattened token list. -/
theorem toString_eq_flat (k : CacheKey) (hsafe : roundTripSafe k) :
    CacheKeyFactory.toString k = List.intercalate [':'] (flatParts k) := by
  obtain ⟨key, ns, ver, tid, uid, tags⟩ := k
  obtain ⟨⟨hk1, hk2, hk3, hk4, hk5⟩, hfirst, hver, hns, hten, huser, htag, hsort⟩ := hsafe
  rcases ver with _ | v <;> rcases ns with _ | n <;> rcases tid with _ | t <;>
    rcases uid with _ | u <;> by_cases htags : tags = [] <;>
    simp_all [CacheKeyFactory.toString, flatParts, versionPart, nsPart, tenantPart,
      userPart, tagsPart, tenantFlat, userFlat, tagsFlat,
      intercalate_cons₂, intercalate_single, List.append_assoc]

open CacheKeyFactory in
/-- The comma-joined sorted tag CSV never contains the key separator. -/
theorem colon_free_csv (tags : List Str) (h : ∀ t ∈ tags, ':' ∉ t) :
    ':' ∉ List.intercalate [','] (sortTags tags) := by
  apply not_mem_intercalate _ _ _ (by decide)
  intro x hx
  exact h x (by simpa [sortTags, List.mem_insertionSort] using hx)

open CacheKeyFactory in
/-- No token of the flattened serialized form contains the separator. -/
theorem colon_free_flatParts (k : CacheKey) (hsafe : roundTripSafe k) :
    ∀ p ∈ flatParts k, ':' ∉ p := by
  obtain ⟨key, ns, ver, tid, uid, tags⟩ := k
  obtain ⟨⟨hk1, hk2, hk3, hk4, hk5⟩, hfirst, hver, hns, hten, huser, htag, hsort⟩ := hsafe
  intro p hp
  have hcsv : ':' ∉ List.intercalate [','] (sortTags tags) :=
    colon_free_csv tags (fun t ht => (htag t ht).2.1)
  simp only [flatParts, List.mem_append, List.mem_singleton] at hp
  rcases hp with ((((hp | hp) | hp) | hp) | hp) | hp
  · cases ver with
    | none => simp [versionPart] at hp
    | some v =>
      obtain ⟨hv1, hv2, hv3⟩ := hver
      simp [versionPart, hv1] at hp
      subst hp
      exact hv3
  · cases ns with
    | none => simp [nsPart] at hp
    | some n =>
      obtain ⟨hn1, hn2, _⟩ := hns
      simp [nsPart, hn1] at hp
      subst hp
      exact hn2
  · cases tid with
    | none => simp [tenantFlat] at hp
    | some t =>
      obtain ⟨ht1, ht2⟩ := hten
      simp [tenantFlat, ht1] at hp
      rcases hp with hp | hp
      · subst hp; decide
      · subst hp; exact ht2
  · cases uid with
    | none => simp [userFlat] at hp
    | some u =>
      obtain ⟨hu1, hu2⟩ := huser
      simp [userFlat, hu1] at hp
      rcases hp with hp | hp
      · subst hp; decide
      · subst hp; exact hu2
  · by_cases htags : tags = []
    · simp [tagsFlat, htags] at hp
    · simp [tagsFlat, htags] at hp
      rcases hp with hp | hp
      · subst hp; decide
      · subst hp; exact hcsv
  · subst hp
    exact hk2

open CacheKeyFactory in
/-- Splitting the serialized key string on `:` recovers exactly the
flattened token list. -/
theorem splitOn_toString (k : CacheKey) (hsafe : roundTripSafe k) :
    (CacheKeyFactory.toString k).splitOn ':' = flatParts k := by
  rw [toString_eq_flat k hsafe]
  exact List.splitOn_intercalate (flatParts k) ':' (colon_free_flatParts k hsafe)
    (by simp [flatParts])

open CacheKeyFactory in
/-- The tags CSV round-trips: splitting the comma-join of the sorted tags
and dropping empty pieces gives back the tag list. -/
theorem tags_recover (tags : List Str) (hsort : List.Sorted strLeR tags)
    (htag : ∀ t ∈ tags, ¬t = [] ∧ ':' ∉ t ∧ ',' ∉ t) (hne : ¬tags = []) :
    ((List.intercalate [','] (sortTags tags)).splitOn ',').filter
      (fun x => x.length > 0) = tags := by
  have hsorted : sortTags tags = tags := List.Sorted.insertionSort_eq hsort
  rw [hsorted, List.splitOn_intercalate tags ',' (fun t ht => (htag t ht).2.2) hne]
  rw [List.filter_eq_self.mpr]
  intro a ha
  have h1 := (htag a ha).1
  simp [List.length_pos, h1]

open CacheKeyFactory in
/-- The staged parser inverts serialization on the flattened token list. -/
theorem parseParts_flatParts (k : CacheKey) (hsafe : roundTripSafe k) :
    parseParts (flatParts k) = k := by
  obtain ⟨key, ns, ver, tid, uid, tags⟩ := k
  obtain ⟨⟨hk1, hk2, hk3, hk4, hk5⟩, hfirst, hver, hns, hten, huser, htag, hsort⟩ := hsafe
  have hrec := tags_recover tags hsort htag
  rcases ver with _ | v <;> rcases ns with _ | n <;> rcases tid with _ | t <;>
    rcases uid with _ | u <;> by_cases htags : tags = [] <;>
    simp_all [parseParts, takeVersion, takeNamespace, takeMarked, takeTags,
      flatParts, versionPart, nsPart, tenantFlat, userFlat, tagsFlat,
      tenantMark, userMark, tagsMark, intercalate_single]

open CacheKeyFactory in
/-- C3 counterexample: the sanitized key whose base key is the bare word
`value` — serialization yields the string `value`, which `parse` reads back
as a version token (it starts with `v`), returning a key with an empty base
key and a spurious version.  The round trip fails on a valid key. -/
theorem claim3_counterexample :
    validCacheKey keyValueOnly = true ∧
      ¬CacheKeyFactory.parse (CacheKeyFactory.toString keyValueOnly) = keyValueOnly := by
  decide

open CacheKeyFactory in
/-- C3 amended: `parse` is the exact inverse of `toString` on every
sanitized key whose serialized tokens are unambiguous — the base key is
non-empty, separator-free, not a reserved marker, and not `v…` when it is
the only token; a present version starts with `v`; a present namespace is
non-empty, separator-free, not a reserved marker and not `v…` when no
version is present; present tenant/user ids are non-empty and
separator-free; tags are non-empty, separator- and comma-free and listed in
the sorted order serialization emits.  Segments appear in the string exactly
when present, which the structural equality of the parse transports. -/
theorem claim3_amended_roundtrip (k : CacheKey) (hsafe : roundTripSafe k) :
    CacheKeyFactory.parse (CacheKeyFactory.toString k) = k := by
  unfold CacheKeyFactory.parse
  rw [splitOn_toString k hsafe, parseParts_flatParts k hsafe]

open CacheKeyFactory in
/-- C3 witness: a fully populated sanitized key (version, namespace, tenant,
user and two sorted tags) round-trips. -/
theorem claim3_amended_roundtrip_witness :
    validCacheKey keyFull = true ∧ roundTripSafe keyFull ∧
      CacheKeyFactory.parse (CacheKeyFactory.toString keyFull) = keyFull := by
  have hsafe : roundTripSafe keyFull := by
    unfold roundTripSafe
    refine ⟨?_, ?_, ?_, ?_, ?_, ?_, ?_, ?_⟩ <;> simp only [keyFull] <;> decide
  exact ⟨by decide, hsafe, claim3_amended_roundtrip keyFull hsafe⟩

end Hl8Cache
